import Mathlib

/-!
Shallow embedding of `update_components.py` (a configuration-driven updater for
Lovelace custom components) and verification of the specification's claims
about it.

The network and the clock are modelled as an explicit oracle (`Env`); the
filesystem is modelled as an explicit state (`FS`) threaded through each
operation.  JSON dictionaries (the persisted `version.json` records) are
modelled as association lists with Python-dict insertion semantics.  Each
definition is a direct translation of the Python function of the same name.
-/

namespace UpdateComponents

/-- JSON values that can appear in a `version.json` record: strings, the list
of downloaded files, and the file-to-hash mapping. -/
inductive JVal where
  | str (s : String)
  | list (xs : List String)
  | dict (d : List (String × String))
deriving DecidableEq

/-- Python truthiness for the JSON values above (used by `current or "N/A"` at
line 241 of the source): empty string, empty list and empty dict are falsy. -/
def JVal.truthy : JVal → Bool
  | .str s => !(s == "")
  | .list xs => !xs.isEmpty
  | .dict d => !d.isEmpty

/-- Python dict insertion `d[k] = v`: if the key is present its value is
updated in place, otherwise the binding is appended at the end. -/
def insertAssoc {α : Type} : List (String × α) → String → α → List (String × α)
  | [], k, v => [(k, v)]
  | p :: rest, k, v => if p.1 = k then (k, v) :: rest else p :: insertAssoc rest k v

/-- Python `d.get(k)` on a JSON dictionary. -/
def dictGet (d : List (String × JVal)) (k : String) : Option JVal :=
  d.lookup k

/-- One entry of a release's `assets` list (only the fields the source reads). -/
structure Asset where
  name : String
  browser_download_url : String
deriving DecidableEq

/-- Parsed response of the latest-release endpoint (the fields the source
reads: `tag_name` and `assets`; an absent `assets` key is the empty list,
matching `latest_info.get("assets", [])`). -/
structure Release where
  tag_name : String
  assets : List Asset
deriving DecidableEq

/-- Parsed response of the commit-by-branch endpoint (the source reads `sha`). -/
structure Commit where
  sha : String
deriving DecidableEq

/-- The `latest_info` value of `update_component`: either release metadata or
commit metadata, tracked together with the (possibly downgraded) `use_releases`
flag which always agrees with the variant. -/
inductive LatestInfo where
  | release (r : Release)
  | commit (c : Commit)
deriving DecidableEq

/-- One entry of a component's configured `files` list. -/
structure FileInfo where
  source : String
  destination : String
deriving DecidableEq

/-- One component's configuration: `source_url`, `files`, and the optional
`use_releases` flag (read with `component_config.get("use_releases", True)`). -/
structure ComponentConfig where
  source_url : String
  files : List FileInfo
  use_releases : Option Bool
deriving DecidableEq

/-- The loaded configuration: component name to component configuration
(a Python dict, so keys are unique). -/
abbrev Config := List (String × ComponentConfig)

/-- The filesystem state: per-component `version.json` records, and the bytes
of every other file on disk, each as a path-keyed map. -/
structure FS where
  records : List (String × List (String × JVal))
  files : List (String × String)
deriving DecidableEq

/-- The external world: the metadata endpoints (keyed by request URL), raw
byte downloads (keyed by URL, `none` meaning a network error or non-2xx
response), the SHA-256 digest function, and the current timestamp. -/
structure Env where
  releaseAt : String → Option Release
  commitAt : String → Option Commit
  fileAt : String → Option String
  sha256 : String → String
  now : String

/-! ### Python string primitives (executable, structurally recursive) -/

/-- Python `s.split(sep)` for a one-character separator, on character lists. -/
def splitOnChar (sep : Char) : List Char → List (List Char)
  | [] => [[]]
  | c :: rest =>
    if c = sep then [] :: splitOnChar sep rest
    else match splitOnChar sep rest with
      | [] => [[c]]
      | g :: gs => (c :: g) :: gs

/-- Left-to-right replacement of every occurrence of `pat`; the fuel is an
upper bound on the number of steps (each step consumes at least one input
character, so `l.length` fuel is always enough for a nonempty `pat`). -/
def replaceAux (pat rep : List Char) : Nat → List Char → List Char
  | _, [] => []
  | 0, l => l
  | fuel + 1, c :: rest =>
    if pat.isPrefixOf (c :: rest) then
      rep ++ replaceAux pat rep fuel ((c :: rest).drop pat.length)
    else c :: replaceAux pat rep fuel rest

/-- Python `s.replace(pat, rep)` (all occurrences, left to right), for the
nonempty literal pattern used at lines 54 and 72 of the source. -/
def py_replace (s pat rep : String) : String :=
  if pat.data.isEmpty then s
  else ⟨replaceAux pat.data rep.data s.data.length s.data⟩

/-- Python `s.split("/")`. -/
def py_split_slash (s : String) : List String :=
  (splitOnChar '/' s.data).map String.mk

/-- Python `s[:n]`. -/
def py_take (s : String) (n : Nat) : String := ⟨s.data.take n⟩

/-- Python `os.path.basename(p)` for slash-separated paths: everything after
the last slash. -/
def os_path_basename (p : String) : String :=
  (py_split_slash p).getLastD ""

/-- Python `os.path.join(a, b)` in the relative-path form the source uses
(`os.path.join(component_name, ...)`). -/
def os_path_join (a b : String) : String := a ++ "/" ++ b

/-! ### Version Store (`_save_version_info` / `_get_current_version`) -/

/-- `_save_version_info` (lines 34-40): overwrite the component's
`version.json` with the given record. -/
def save_version_info (fs : FS) (component_name : String)
    (version_info : List (String × JVal)) : FS :=
  { fs with records := insertAssoc fs.records component_name version_info }

/-- `_get_current_version` (lines 42-49): read the component's `version.json`,
`none` when the file does not exist. -/
def get_current_version (fs : FS) (component_name : String) :
    Option (List (String × JVal)) :=
  fs.records.lookup component_name

/-! ### Revision Resolver (`_get_latest_release` / `_get_latest_commit`) -/

/-- `repo_url.replace("https://github.com/", "").split("/")` (lines 54, 72). -/
def repo_parts (repo_url : String) : List String :=
  py_split_slash (py_replace repo_url "https://github.com/" "")

/-- The latest-release API URL built at line 60. -/
def release_api_url (owner repo : String) : String :=
  "https://api.github.com/repos/" ++ owner ++ "/" ++ repo ++ "/releases/latest"

/-- The commit-by-branch API URL built at line 77. -/
def commit_api_url (owner repo branch : String) : String :=
  "https://api.github.com/repos/" ++ owner ++ "/" ++ repo ++ "/commits/" ++ branch

/-- `_get_latest_release` (lines 51-68): parse owner/repo out of the URL and
query the latest-release endpoint; `none` on an invalid reference or a failed
request (which includes the zero-releases 404). -/
def get_latest_release (env : Env) (repo_url : String) : Option Release :=
  let parts := repo_parts repo_url
  if parts.length < 2 then none
  else env.releaseAt (release_api_url (parts.getD 0 "") (parts.getD 1 ""))

/-- The recursion of `_get_latest_commit` (lines 70-88), with the single
master-to-main retry realised as structural recursion on a retry budget (the
source's recursive call happens at most once, so a budget of 1 reproduces it
exactly).  Besides the result, the list of branch names for which a request
was actually issued is returned as an event trace. -/
def get_latest_commit_go (env : Env) (repo_url : String) :
    Nat → String → Option Commit × List String
  | fuel, branch =>
    let parts := repo_parts repo_url
    if parts.length < 2 then (none, [])
    else
      match env.commitAt (commit_api_url (parts.getD 0 "") (parts.getD 1 "") branch) with
      | some c => (some c, [branch])
      | none =>
        match fuel with
        | 0 => (none, [branch])
        | fuel2 + 1 =>
          if branch = "master" then
            let r := get_latest_commit_go env repo_url fuel2 "main"
            (r.1, branch :: r.2)
          else (none, [branch])

/-- `_get_latest_commit` (lines 70-88): query the latest commit on `branch`
(default "master"); if that fails and the branch was "master", retry once with
"main".  Returns the result and the trace of attempted branches. -/
def get_latest_commit (env : Env) (repo_url : String)
    (branch : String := "master") : Option Commit × List String :=
  get_latest_commit_go env repo_url 1 branch

/-- Lines 133-146 of `update_component` (and 221-229 of `check_for_updates`):
if releases are preferred, try the latest release and fall back to the latest
commit when that fails; otherwise resolve the latest commit directly. -/
def resolve_latest (env : Env) (repo_url : String) (use_releases : Bool) :
    Option LatestInfo :=
  if use_releases then
    match get_latest_release env repo_url with
    | some r => some (LatestInfo.release r)
    | none => ((get_latest_commit env repo_url "master").1).map LatestInfo.commit
  else ((get_latest_commit env repo_url "master").1).map LatestInfo.commit

/-- Lines 150/153: the resolved identifier — the release tag, or the first 8
characters of the commit SHA. -/
def latest_identifier : LatestInfo → String
  | .release r => r.tag_name
  | .commit c => py_take c.sha 8

/-- The `use_releases` flag after resolution, which the source keeps in sync
with the variant of `latest_info`. -/
def is_release : LatestInfo → Bool
  | .release _ => true
  | .commit _ => false

/-- Lines 151/154 (and 234/237): the stored identifier read from the current
record under the mode-dependent key; `none` when the record is absent (Python
also yields `None` for a falsy empty record, with the same lookup result). -/
def current_hash_of (latest_info : LatestInfo)
    (current_version : Option (List (String × JVal))) : Option JVal :=
  match current_version with
  | none => none
  | some cv =>
    match latest_info with
    | .release _ => dictGet cv "version"
    | .commit _ => dictGet cv "commit_hash"

/-! ### Update Planner (URL construction, lines 169-183) -/

/-- The asset-search loop at lines 172-176: the download URL of the first
asset whose name equals `base`, if any. -/
def find_asset_url : List Asset → String → Option String
  | [], _ => none
  | asset :: rest, base =>
    if asset.name = base then some asset.browser_download_url
    else find_asset_url rest base

/-- The raw-content URL `f"{repo_url}/raw/{revision}/{source_path}"`
(lines 180, 183). -/
def raw_url (repo_url revision source_path : String) : String :=
  repo_url ++ "/raw/" ++ revision ++ "/" ++ source_path

/-- Lines 169-183: the download URL for one file.  For a release, the first
asset whose name equals the basename of the source path wins; with no match
— or a falsy empty asset URL, since the source tests `if not download_url` —
the raw URL at the release tag is used.  For a commit, always the raw URL at
the full commit SHA. -/
def build_download_url (repo_url : String) (latest_info : LatestInfo)
    (source_path : String) : String :=
  match latest_info with
  | .release r =>
    match find_asset_url r.assets (os_path_basename source_path) with
    | some u => if u = "" then raw_url repo_url r.tag_name source_path else u
    | none => raw_url repo_url r.tag_name source_path
  | .commit c => raw_url repo_url c.sha source_path

/-! ### Fetcher (`_download_file` and the download loop) -/

/-- `_download_file` (lines 90-104): fetch the URL and write the bytes to the
destination; on failure report `False` and leave the filesystem unchanged. -/
def download_file (env : Env) (fs : FS) (url destination : String) : Bool × FS :=
  match env.fileAt url with
  | some content => (true, { fs with files := insertAssoc fs.files destination content })
  | none => (false, fs)

/-- The download loop at lines 164-189: process the configured files in
order; the first failure aborts (later entries are not attempted, files
already written stay on disk).  Returns the accumulated `updated_files` on
success (`none` on failure), the filesystem, and the trace of download URLs
actually requested. -/
def download_files (env : Env) (component_name repo_url : String)
    (latest_info : LatestInfo) :
    FS → List FileInfo → Option (List String) × FS × List String
  | fs, [] => (some [], fs, [])
  | fs, file_info :: rest =>
    let dest_path := os_path_join component_name file_info.destination
    let download_url := build_download_url repo_url latest_info file_info.source
    match download_file env fs download_url dest_path with
    | (true, fs2) =>
      let r := download_files env component_name repo_url latest_info fs2 rest
      (r.1.map (fun l => dest_path :: l), r.2.1, download_url :: r.2.2)
    | (false, fs2) => (none, fs2, [download_url])

/-! ### Version record construction (lines 191-199) -/

/-- `_calculate_file_hash` (lines 106-115): SHA-256 of the file on disk, the
empty string when the file does not exist. -/
def calculate_file_hash (env : Env) (fs : FS) (file_path : String) : String :=
  match fs.files.lookup file_path with
  | some content => env.sha256 content
  | none => ""

/-- The `file_hashes` dict comprehension at line 198. -/
def mk_file_hashes (env : Env) (fs : FS) (updated_files : List String) :
    List (String × String) :=
  updated_files.foldl (fun d f => insertAssoc d f (calculate_file_hash env fs f)) []

/-- The `version_info` dict literal at lines 192-199, including the dynamic
fourth key `"commit_hash" if not use_releases else "version"` (in release mode
that key is `"version"` again, overwriting the first entry with the same
value). -/
def mk_version_info (use_releases : Bool) (latest_version repo_url now : String)
    (updated_files : List String) (file_hashes : List (String × String)) :
    List (String × JVal) :=
  let d := insertAssoc [] "version" (JVal.str latest_version)
  let d := insertAssoc d "source_url" (JVal.str repo_url)
  let d := insertAssoc d "last_updated" (JVal.str now)
  let d := insertAssoc d (if !use_releases then "commit_hash" else "version")
    (JVal.str latest_version)
  let d := insertAssoc d "files" (JVal.list updated_files)
  insertAssoc d "file_hashes" (JVal.dict file_hashes)

/-! ### Orchestrator (`update_component`, `update_all_components`,
`check_for_updates`) -/

/-- The outcome of one `update_component` call: the returned boolean, the
filesystem afterwards, and the trace of file-download URLs requested. -/
structure UpdateResult where
  ok : Bool
  fs : FS
  downloads : List String
deriving DecidableEq

/-- Lines 148-203 of `update_component`, after resolution succeeded: compare
the stored identifier with the resolved one; when equal, report success with
no download and no write; otherwise run the download loop and, only if every
file succeeded, write the new version record. -/
def update_with_latest (env : Env) (repo_url component_name : String)
    (files_to_download : List FileInfo) (latest_info : LatestInfo)
    (current_version : Option (List (String × JVal))) (fs : FS) : UpdateResult :=
  let latest_version := latest_identifier latest_info
  let current_hash := current_hash_of latest_info current_version
  if current_hash = some (JVal.str latest_version) then ⟨true, fs, []⟩
  else
    match download_files env component_name repo_url latest_info fs files_to_download with
    | (none, fs2, urls) => ⟨false, fs2, urls⟩
    | (some updated_files, fs2, urls) =>
      ⟨true,
        save_version_info fs2 component_name
          (mk_version_info (is_release latest_info) latest_version repo_url env.now
            updated_files (mk_file_hashes env fs2 updated_files)),
        urls⟩

/-- `update_component` (lines 117-203). -/
def update_component (env : Env) (config : Config) (component_name : String)
    (fs : FS) : UpdateResult :=
  match config.lookup component_name with
  | none => ⟨false, fs, []⟩
  | some component_config =>
    let current_version := get_current_version fs component_name
    match resolve_latest env component_config.source_url
        (component_config.use_releases.getD true) with
    | none => ⟨false, fs, []⟩
    | some latest_info =>
      update_with_latest env component_config.source_url component_name
        component_config.files latest_info current_version fs

/-- One iteration of the `update_all_components` loop (lines 208-209). -/
def update_all_step (env : Env) (config : Config)
    (results : List (String × Bool) × FS) (p : String × ComponentConfig) :
    List (String × Bool) × FS :=
  let r := update_component env config p.1 results.2
  (insertAssoc results.1 p.1 r.ok, r.fs)

/-- `update_all_components` (lines 205-210): run `update_component` for every
configured component in order, collecting one boolean per component. -/
def update_all_components (env : Env) (config : Config) (fs : FS) :
    List (String × Bool) × FS :=
  config.foldl (update_all_step env config) ([], fs)

/-- One entry of the map returned by `check_for_updates` (lines 240-244). -/
structure CheckInfo where
  current : JVal
  latest : String
  url : String
deriving DecidableEq

/-- `current or "N/A"` at line 241 (Python truthiness). -/
def current_or_na : Option JVal → JVal
  | some v => if v.truthy then v else JVal.str "N/A"
  | none => JVal.str "N/A"

/-- The body of the `check_for_updates` loop for one component
(lines 217-244): resolve the latest revision, compare identifiers, and report
the component when they differ; components whose resolution fails are skipped. -/
def check_component (env : Env) (fs : FS) (component_name : String)
    (component_config : ComponentConfig) : Option CheckInfo :=
  let repo_url := component_config.source_url
  let current_version := get_current_version fs component_name
  match resolve_latest env repo_url (component_config.use_releases.getD true) with
  | none => none
  | some latest_info =>
    let latest_version := latest_identifier latest_info
    let current := current_hash_of latest_info current_version
    if current ≠ some (JVal.str latest_version) then
      some ⟨current_or_na current, latest_version, repo_url⟩
    else none

/-- One iteration of the `check_for_updates` loop. -/
def check_for_updates_step (env : Env) (acc : List (String × CheckInfo) × FS)
    (p : String × ComponentConfig) : List (String × CheckInfo) × FS :=
  match check_component env acc.2 p.1 p.2 with
  | some info => (insertAssoc acc.1 p.1 info, acc.2)
  | none => acc

/-- `check_for_updates` (lines 212-246): the read-only check loop, threaded
through the filesystem state it reads from. -/
def check_for_updates (env : Env) (config : Config) (fs : FS) :
    List (String × CheckInfo) × FS :=
  config.foldl (check_for_updates_step env) ([], fs)

/-- The filesystem state after running `update_component` sequentially over
the listed components (the states the `update_all_components` loop passes
along). -/
def run_components (env : Env) (config : Config) (fs : FS) :
    List (String × ComponentConfig) → FS
  | [] => fs
  | p :: rest => run_components env config (update_component env config p.1 fs).fs rest

/-! ### Association-list lemmas -/

@[simp]
theorem lookup_insertAssoc_self {α : Type} (l : List (String × α)) (k : String) (v : α) :
    (insertAssoc l k v).lookup k = some v := by
  induction l with
  | nil => simp [insertAssoc, List.lookup]
  | cons p rest ih =>
    by_cases h : p.1 = k
    · simp [insertAssoc, h, List.lookup]
    · have hb : (k == p.1) = false := by
        rw [beq_eq_false_iff_ne]
        exact Ne.symm h
      simp [insertAssoc, h, List.lookup, ih, hb]

theorem lookup_insertAssoc_ne {α : Type} (l : List (String × α)) (k k2 : String) (v : α)
    (h : k2 ≠ k) : (insertAssoc l k v).lookup k2 = l.lookup k2 := by
  have hb : (k2 == k) = false := by
    rw [beq_eq_false_iff_ne]
    exact h
  induction l with
  | nil => simp [insertAssoc, List.lookup, hb]
  | cons p rest ih =>
    by_cases hp : p.1 = k
    · subst hp
      simp [insertAssoc, List.lookup, hb]
    · simp [insertAssoc, hp, List.lookup, ih]

theorem lookup_insertAssoc_isSome {α : Type} (l : List (String × α)) (k k2 : String) (v : α)
    (h : (l.lookup k2).isSome = true) :
    ((insertAssoc l k v).lookup k2).isSome = true := by
  by_cases hk : k2 = k
  · subst hk; simp
  · rwa [lookup_insertAssoc_ne l k k2 v hk]

theorem map_fst_insertAssoc_mem {α : Type} (l : List (String × α)) (k : String) (v : α)
    (h : k ∈ l.map Prod.fst) : (insertAssoc l k v).map Prod.fst = l.map Prod.fst := by
  induction l with
  | nil => simp at h
  | cons p rest ih =>
    by_cases hp : p.1 = k
    · simp [insertAssoc, hp]
    · simp only [List.map_cons, List.mem_cons] at h
      rcases h with h | h
      · exact absurd h.symm hp
      · simp [insertAssoc, hp, ih h]

theorem insertAssoc_not_mem {α : Type} (l : List (String × α)) (k : String) (v : α)
    (h : k ∉ l.map Prod.fst) : insertAssoc l k v = l ++ [(k, v)] := by
  induction l with
  | nil => simp [insertAssoc]
  | cons p rest ih =>
    simp only [List.map_cons, List.mem_cons, not_or] at h
    have hp : ¬p.1 = k := fun hp => h.1 hp.symm
    simp [insertAssoc, hp, ih h.2]

/-! ### Version-record key lemmas -/

theorem mk_version_info_version (u : Bool) (lv ru now : String) (fl : List String)
    (fh : List (String × String)) :
    dictGet (mk_version_info u lv ru now fl fh) "version" = some (JVal.str lv) := by
  cases u <;> rfl

theorem mk_version_info_commit_hash_true (lv ru now : String) (fl : List String)
    (fh : List (String × String)) :
    dictGet (mk_version_info true lv ru now fl fh) "commit_hash" = none := rfl

theorem mk_version_info_commit_hash_false (lv ru now : String) (fl : List String)
    (fh : List (String × String)) :
    dictGet (mk_version_info false lv ru now fl fh) "commit_hash" = some (JVal.str lv) := rfl

/-- Reading back the record a successful update just wrote always matches the
identifier it was written with, in either mode. -/
theorem current_hash_of_mk_version_info (li : LatestInfo) (lv ru now : String)
    (fl : List String) (fh : List (String × String)) :
    current_hash_of li (some (mk_version_info (is_release li) lv ru now fl fh))
      = some (JVal.str lv) := by
  cases li with
  | release r =>
    simp [current_hash_of, is_release, mk_version_info_version]
  | commit c =>
    simp [current_hash_of, is_release, mk_version_info_commit_hash_false]

/-! ### Download-loop lemmas -/

/-- The download loop never touches any `version.json`: only `_download_file`
writes, and it writes file bytes. -/
theorem download_files_records (env : Env) (n r : String) (li : LatestInfo) :
    ∀ (files : List FileInfo) (fs : FS),
      ((download_files env n r li fs files).2.1).records = fs.records := by
  intro files
  induction files with
  | nil => intro fs; rfl
  | cons fi rest ih =>
    intro fs
    simp only [download_files]
    cases hdl : download_file env fs (build_download_url r li fi.source)
        (os_path_join n fi.destination) with
    | mk ok fs2 =>
      cases ok with
      | true =>
        simp only []
        rw [ih fs2]
        unfold download_file at hdl
        cases hfile : env.fileAt (build_download_url r li fi.source) with
        | some content => rw [hfile] at hdl; cases hdl; rfl
        | none => rw [hfile] at hdl; cases hdl
      | false =>
        simp only []
        unfold download_file at hdl
        cases hfile : env.fileAt (build_download_url r li fi.source) with
        | some content => rw [hfile] at hdl; cases hdl
        | none => rw [hfile] at hdl; cases hdl; rfl

/-- A file present on disk stays present through the rest of the loop. -/
theorem download_files_files_mono (env : Env) (n r : String) (li : LatestInfo) :
    ∀ (files : List FileInfo) (fs : FS) (d : String),
      ((fs.files.lookup d).isSome = true) →
      ((((download_files env n r li fs files).2.1).files.lookup d).isSome = true) := by
  intro files
  induction files with
  | nil => intro fs d h; exact h
  | cons fi rest ih =>
    intro fs d h
    simp only [download_files]
    cases hfile : env.fileAt (build_download_url r li fi.source) with
    | some content =>
      simp only [download_file, hfile]
      exact ih _ d (lookup_insertAssoc_isSome fs.files _ d content h)
    | none =>
      simp only [download_file, hfile]
      exact h

/-- Abort behaviour of the download loop: if the first `k` downloads succeed
and the download at index `k` fails, the loop reports failure, requests
exactly the URLs of entries `0..k`, leaves every `version.json` untouched,
and the destinations of entries `0..k-1` are on disk. -/
theorem download_files_abort (env : Env) (n r : String) (li : LatestInfo) :
    ∀ (files : List FileInfo) (fs : FS) (k : Nat) (hk : k < files.length),
      ((files.take k).all
        (fun fi => (env.fileAt (build_download_url r li fi.source)).isSome) = true) →
      (env.fileAt (build_download_url r li (files.get ⟨k, hk⟩).source) = none) →
      (download_files env n r li fs files).1 = none ∧
      (download_files env n r li fs files).2.2
        = (files.take (k+1)).map (fun fi => build_download_url r li fi.source) ∧
      ((files.take k).all
        (fun fi => (((download_files env n r li fs files).2.1).files.lookup
          (os_path_join n fi.destination)).isSome) = true) := by
  intro files
  induction files with
  | nil => intro fs k hk; exact absurd hk (by simp)
  | cons fi rest ih =>
    intro fs k hk hpre hfail
    cases k with
    | zero =>
      simp only [List.get] at hfail
      simp [download_files, download_file, hfail]
    | succ k2 =>
      simp only [List.take, List.all_cons, Bool.and_eq_true] at hpre
      cases hfile : env.fileAt (build_download_url r li fi.source) with
      | none => rw [hfile] at hpre; exact absurd hpre.1 (by simp)
      | some content =>
        have hk2 : k2 < rest.length := Nat.lt_of_succ_lt_succ hk
        have hfail2 : env.fileAt (build_download_url r li (rest.get ⟨k2, hk2⟩).source) = none := by
          simpa only [List.get] using hfail
        obtain ⟨h1, h3, h4⟩ :=
          ih { fs with files := insertAssoc fs.files (os_path_join n fi.destination) content }
            k2 hk2 hpre.2 hfail2
        refine ⟨?_, ?_, ?_⟩
        · simp only [download_files, download_file, hfile]
          rw [h1]
          rfl
        · simp only [download_files, download_file, hfile]
          rw [h3]
          rfl
        · simp only [download_files, download_file, hfile, List.take, List.all_cons,
            Bool.and_eq_true]
          constructor
          · exact download_files_files_mono env n r li rest _ _
              (by simp [lookup_insertAssoc_self])
          · exact h4

/-- The successful branch of the no-op check: when the stored identifier
matches the resolved one, `update_component` reports success immediately with
no download and no filesystem change. -/
theorem update_component_noop_of (env : Env) (config : Config) (name : String) (fs : FS)
    (cc : ComponentConfig) (li : LatestInfo)
    (hcfg : config.lookup name = some cc)
    (hres : resolve_latest env cc.source_url (cc.use_releases.getD true) = some li)
    (hcur : current_hash_of li (get_current_version fs name)
      = some (JVal.str (latest_identifier li))) :
    update_component env config name fs = ⟨true, fs, []⟩ := by
  simp [update_component, hcfg, hres, update_with_latest, hcur]

/-! ### Fold lemmas for the two orchestrator loops -/

/-- The check loop passes the filesystem through unchanged: no step writes. -/
theorem check_fold_state (env : Env) :
    ∀ (l : List (String × ComponentConfig)) (acc : List (String × CheckInfo) × FS),
      (l.foldl (check_for_updates_step env) acc).2 = acc.2 := by
  intro l
  induction l with
  | nil => intro acc; rfl
  | cons p rest ih =>
    intro acc
    simp only [List.foldl]
    rw [ih]
    unfold check_for_updates_step
    cases check_component env acc.2 p.1 p.2 <;> rfl

/-- Entries whose key never occurs later in the check loop are preserved. -/
theorem check_fold_lookup_of_not_mem (env : Env) :
    ∀ (l : List (String × ComponentConfig)) (acc : List (String × CheckInfo) × FS)
      (k : String), k ∉ l.map Prod.fst →
      (l.foldl (check_for_updates_step env) acc).1.lookup k = acc.1.lookup k := by
  intro l
  induction l with
  | nil => intro acc k _; rfl
  | cons p rest ih =>
    intro acc k hk
    simp only [List.map_cons, List.mem_cons, not_or] at hk
    simp only [List.foldl]
    rw [ih _ k hk.2]
    unfold check_for_updates_step
    cases check_component env acc.2 p.1 p.2 with
    | none => rfl
    | some info => exact lookup_insertAssoc_ne acc.1 p.1 k info hk.1

/-- One check step never changes the filesystem component of the accumulator. -/
theorem check_step_state (env : Env) (acc : List (String × CheckInfo) × FS)
    (p : String × ComponentConfig) : (check_for_updates_step env acc p).2 = acc.2 := by
  unfold check_for_updates_step
  cases check_component env acc.2 p.1 p.2 <;> rfl

/-- The check loop records, for a component present in the processed list
(with unique keys), exactly what `check_component` decides for it. -/
theorem check_fold_lookup_mem (env : Env) (name : String) (cc : ComponentConfig)
    (info : CheckInfo) :
    ∀ (l : List (String × ComponentConfig)) (acc : List (String × CheckInfo) × FS),
      (l.map Prod.fst).Nodup → (name, cc) ∈ l →
      check_component env acc.2 name cc = some info →
      (l.foldl (check_for_updates_step env) acc).1.lookup name = some info := by
  intro l
  induction l with
  | nil =>
    intro acc _ hmem _
    simp at hmem
  | cons p rest ih =>
    intro acc hnd hmem hcheck
    simp only [List.map_cons, List.nodup_cons] at hnd
    rcases List.mem_cons.mp hmem with heq | hmem2
    · have hstep : check_for_updates_step env acc p = (insertAssoc acc.1 name info, acc.2) := by
        rw [← heq]
        unfold check_for_updates_step
        rw [hcheck]
      have hname : name ∉ rest.map Prod.fst := by
        rw [← heq] at hnd
        exact hnd.1
      simp only [List.foldl]
      rw [check_fold_lookup_of_not_mem env rest _ name hname, hstep,
        lookup_insertAssoc_self]
    · simp only [List.foldl]
      exact ih _ hnd.2 hmem2 (by rwa [check_step_state])

/-- The state threaded through the `update_all_components` loop is exactly
the sequential composition of the single-component updates. -/
theorem update_all_fold_state (env : Env) (config : Config) :
    ∀ (l : List (String × ComponentConfig)) (acc : List (String × Bool) × FS),
      (l.foldl (update_all_step env config) acc).2 = run_components env config acc.2 l := by
  intro l
  induction l with
  | nil => intro acc; rfl
  | cons p rest ih =>
    intro acc
    simp only [List.foldl, run_components]
    rw [ih]
    rfl

/-- Entries whose key never occurs later in the update-all loop are preserved. -/
theorem update_all_fold_lookup_of_not_mem (env : Env) (config : Config) :
    ∀ (l : List (String × ComponentConfig)) (acc : List (String × Bool) × FS)
      (k : String), k ∉ l.map Prod.fst →
      (l.foldl (update_all_step env config) acc).1.lookup k = acc.1.lookup k := by
  intro l
  induction l with
  | nil => intro acc k _; rfl
  | cons p rest ih =>
    intro acc k hk
    simp only [List.map_cons, List.mem_cons, not_or] at hk
    simp only [List.foldl]
    rw [ih _ k hk.2]
    exact lookup_insertAssoc_ne acc.1 p.1 k _ hk.1

/-- With unique keys fresh for the accumulator, the update-all loop appends one
result per processed component, in order. -/
theorem update_all_fold_keys (env : Env) (config : Config) :
    ∀ (l : List (String × ComponentConfig)) (acc : List (String × Bool) × FS),
      (l.map Prod.fst).Nodup →
      (∀ k, k ∈ l.map Prod.fst → k ∉ acc.1.map Prod.fst) →
      (l.foldl (update_all_step env config) acc).1.map Prod.fst
        = acc.1.map Prod.fst ++ l.map Prod.fst := by
  intro l
  induction l with
  | nil => intro acc _ _; simp
  | cons p rest ih =>
    intro acc hnd hfresh
    simp only [List.map_cons, List.nodup_cons] at hnd
    have hp : p.1 ∉ acc.1.map Prod.fst := hfresh p.1 (by simp)
    have hstep : (update_all_step env config acc p).1
        = acc.1 ++ [(p.1, (update_component env config p.1 acc.2).ok)] :=
      insertAssoc_not_mem acc.1 p.1 _ hp
    simp only [List.foldl]
    rw [ih _ hnd.2]
    · rw [hstep]
      simp
    · intro k hkrest
      rw [hstep]
      simp only [List.map_append, List.mem_append, not_or, List.map_cons, List.map_nil]
      refine ⟨hfresh k (by simp [hkrest]), ?_⟩
      simp only [List.mem_singleton]
      intro hkp
      exact hnd.1 (hkp ▸ hkrest)

/-- The boolean recorded for the component at index `i` is the result of
running `update_component` for it on the state left behind by the components
before it — regardless of any earlier failures. -/
theorem update_all_fold_get (env : Env) (config : Config) :
    ∀ (l : List (String × ComponentConfig)) (acc : List (String × Bool) × FS)
      (i : Nat) (h : i < l.length), (l.map Prod.fst).Nodup →
      (l.foldl (update_all_step env config) acc).1.lookup (l.get ⟨i, h⟩).1
        = some (update_component env config (l.get ⟨i, h⟩).1
            (run_components env config acc.2 (l.take i))).ok := by
  intro l
  induction l with
  | nil => intro acc i h; exact absurd h (by simp)
  | cons p rest ih =>
    intro acc i h hnd
    simp only [List.map_cons, List.nodup_cons] at hnd
    cases i with
    | zero =>
      simp only [List.get, List.take, run_components, List.foldl]
      rw [update_all_fold_lookup_of_not_mem env config rest _ p.1 hnd.1]
      unfold update_all_step
      rw [lookup_insertAssoc_self]
    | succ i2 =>
      simp only [List.get, List.take, List.foldl]
      have h2 : i2 < rest.length := Nat.lt_of_succ_lt_succ h
      rw [ih _ i2 h2 hnd.2]
      rfl

/-! ### Claim theorems -/

/-- C6: for every configuration and upstream state, `check_for_updates` never
creates, modifies, or deletes any version record and never writes any
downloaded file to disk — the entire filesystem state after the check equals
the state before it. -/
theorem check_for_updates_never_writes (env : Env) (config : Config) (fs : FS) :
    (check_for_updates env config fs).2 = fs := by
  unfold check_for_updates
  exact check_fold_state env config ([], fs)

/-- C10: every version record built by a successful update maps "version" to
the latest identifier in both modes; in commit mode it additionally maps
"commit_hash" to the same identifier, while in release mode no "commit_hash"
key exists; consequently the mode-dependent key read back by the next run
("version" for releases, "commit_hash" for commits) always holds the stored
identifier. -/
theorem version_record_mode_keys (lv ru now : String) (fl : List String)
    (fh : List (String × String)) (r : Release) (c : Commit) :
    dictGet (mk_version_info true lv ru now fl fh) "version" = some (JVal.str lv) ∧
    dictGet (mk_version_info true lv ru now fl fh) "commit_hash" = none ∧
    dictGet (mk_version_info false lv ru now fl fh) "version" = some (JVal.str lv) ∧
    dictGet (mk_version_info false lv ru now fl fh) "commit_hash" = some (JVal.str lv) ∧
    current_hash_of (LatestInfo.release r) (some (mk_version_info true lv ru now fl fh))
      = some (JVal.str lv) ∧
    current_hash_of (LatestInfo.commit c) (some (mk_version_info false lv ru now fl fh))
      = some (JVal.str lv) :=
  ⟨mk_version_info_version true lv ru now fl fh,
   mk_version_info_commit_hash_true lv ru now fl fh,
   mk_version_info_version false lv ru now fl fh,
   mk_version_info_commit_hash_false lv ru now fl fh,
   current_hash_of_mk_version_info (LatestInfo.release r) lv ru now fl fh,
   current_hash_of_mk_version_info (LatestInfo.commit c) lv ru now fl fh⟩

/-- C4: for a valid repository reference, if the "master" lookup fails the
resolver issues exactly one more request, for branch "main", and returns that
request's outcome; a failed lookup on any branch other than "master" is not
retried; and no call ever attempts more than two branch names. -/
theorem branch_fallback_spec (env : Env) (repo_url : String)
    (hvalid : 2 ≤ (repo_parts repo_url).length) :
    (env.commitAt (commit_api_url ((repo_parts repo_url).getD 0 "")
        ((repo_parts repo_url).getD 1 "") "master") = none →
      get_latest_commit env repo_url "master"
        = (env.commitAt (commit_api_url ((repo_parts repo_url).getD 0 "")
            ((repo_parts repo_url).getD 1 "") "main"), ["master", "main"])) ∧
    (∀ b, b ≠ "master" →
      env.commitAt (commit_api_url ((repo_parts repo_url).getD 0 "")
        ((repo_parts repo_url).getD 1 "") b) = none →
      get_latest_commit env repo_url b = (none, [b])) ∧
    (∀ b, (get_latest_commit env repo_url b).2.length ≤ 2) := by
  have hlt : ¬(repo_parts repo_url).length < 2 := by omega
  refine ⟨?_, ?_, ?_⟩
  · intro hmaster
    simp only [get_latest_commit, get_latest_commit_go, hlt, if_false, hmaster]
    cases hmain : env.commitAt (commit_api_url ((repo_parts repo_url).getD 0 "")
        ((repo_parts repo_url).getD 1 "") "main") <;>
      simp [get_latest_commit_go, hlt, hmain]
  · intro b hb hfailb
    simp only [get_latest_commit, get_latest_commit_go, hlt, if_false]
    rw [hfailb]
    simp [hb]
  · intro b
    simp only [get_latest_commit, get_latest_commit_go]
    by_cases hp : (repo_parts repo_url).length < 2
    · simp [hp]
    · simp only [hp, if_false]
      cases hb : env.commitAt (commit_api_url ((repo_parts repo_url).getD 0 "")
          ((repo_parts repo_url).getD 1 "") b)
      · by_cases hm : b = "master"
        · simp only [hm, if_true]
          cases hmain : env.commitAt (commit_api_url ((repo_parts repo_url).getD 0 "")
              ((repo_parts repo_url).getD 1 "") "main") <;>
            simp [get_latest_commit_go, hp, hmain]
        · simp [hm]
      · simp

/-- C5: for a release-preferring component whose latest-release lookup fails,
resolution falls back to the latest commit within the same attempt; if the
commit lookup also fails, `update_component` returns false with no filesystem
change; if it succeeds, the update proceeds along the commit path using the
truncated commit SHA as identifier. -/
theorem release_fallback_spec (env : Env) (config : Config) (name : String) (fs : FS)
    (cc : ComponentConfig)
    (hcfg : config.lookup name = some cc)
    (hpref : cc.use_releases.getD true = true)
    (hrel : get_latest_release env cc.source_url = none) :
    (resolve_latest env cc.source_url (cc.use_releases.getD true)
      = ((get_latest_commit env cc.source_url "master").1).map LatestInfo.commit) ∧
    ((get_latest_commit env cc.source_url "master").1 = none →
      update_component env config name fs = ⟨false, fs, []⟩) ∧
    (∀ c, (get_latest_commit env cc.source_url "master").1 = some c →
      update_component env config name fs
        = update_with_latest env cc.source_url name cc.files (LatestInfo.commit c)
            (get_current_version fs name) fs ∧
      latest_identifier (LatestInfo.commit c) = py_take c.sha 8) := by
  have h1 : resolve_latest env cc.source_url (cc.use_releases.getD true)
      = ((get_latest_commit env cc.source_url "master").1).map LatestInfo.commit := by
    simp [resolve_latest, hpref, hrel]
  refine ⟨h1, ?_, ?_⟩
  · intro hcm
    have hnone : resolve_latest env cc.source_url (cc.use_releases.getD true) = none := by
      rw [h1, hcm]; rfl
    simp [update_component, hcfg, hnone]
  · intro c hcm
    have hsome : resolve_latest env cc.source_url (cc.use_releases.getD true)
        = some (LatestInfo.commit c) := by
      rw [h1, hcm]; rfl
    exact ⟨by simp [update_component, hcfg, hsome], rfl⟩

/-- C3: when the stored identifier under the active mode's key equals the
resolved latest identifier, `update_component` succeeds with no download and
no filesystem write; when it is absent (no record, or no such key) it can
never equal the latest identifier, so the first configured file's download is
always attempted. -/
theorem noop_short_circuit (env : Env) (config : Config) (name : String) (fs : FS)
    (cc : ComponentConfig) (li : LatestInfo)
    (hcfg : config.lookup name = some cc)
    (hres : resolve_latest env cc.source_url (cc.use_releases.getD true) = some li) :
    (current_hash_of li (get_current_version fs name)
        = some (JVal.str (latest_identifier li)) →
      update_component env config name fs = ⟨true, fs, []⟩) ∧
    (current_hash_of li (get_current_version fs name) = none →
      ∀ fi rest, cc.files = fi :: rest →
        (update_component env config name fs).downloads.head?
          = some (build_download_url cc.source_url li fi.source)) := by
  constructor
  · intro hcur
    exact update_component_noop_of env config name fs cc li hcfg hres hcur
  · intro hnone fi rest hfiles
    have hrun : update_component env config name fs
        = update_with_latest env cc.source_url name cc.files li
            (get_current_version fs name) fs := by
      simp [update_component, hcfg, hres]
    rw [hrun, hfiles]
    simp only [update_with_latest, hnone]
    rw [if_neg (by simp)]
    simp only [download_files, download_file]
    cases hfile : env.fileAt (build_download_url cc.source_url li fi.source) with
    | some content =>
      dsimp only
      rcases hdl2 : download_files env name cc.source_url li
          { fs with files := insertAssoc fs.files (os_path_join name fi.destination) content }
          rest with ⟨o, fs2, urls⟩
      cases o <;> simp
    | none => simp

/-- C1: whenever a run of `update_component` returns success (either a no-op
or a completed download-and-write), a second run against the same upstream
state is the already-up-to-date no-op: it returns true, requests no download,
and leaves the filesystem — in particular the persisted version record with
its identifier and file hashes — exactly as the first run left it. -/
theorem updateOne_idempotent (env : Env) (config : Config) (name : String) (fs : FS)
    (h : (update_component env config name fs).ok = true) :
    update_component env config name (update_component env config name fs).fs
      = ⟨true, (update_component env config name fs).fs, []⟩ := by
  rcases hcfg : config.lookup name with _ | cc
  · rw [update_component] at h
    simp [hcfg] at h
  · rcases hres : resolve_latest env cc.source_url (cc.use_releases.getD true) with _ | li
    · rw [update_component] at h
      simp [hcfg, hres] at h
    · have hrun : update_component env config name fs
          = update_with_latest env cc.source_url name cc.files li
              (get_current_version fs name) fs := by
        simp [update_component, hcfg, hres]
      by_cases hcur : current_hash_of li (get_current_version fs name)
          = some (JVal.str (latest_identifier li))
      · have h1 : update_with_latest env cc.source_url name cc.files li
            (get_current_version fs name) fs = ⟨true, fs, []⟩ := by
          simp [update_with_latest, hcur]
        rw [hrun, h1]
        exact update_component_noop_of env config name fs cc li hcfg hres hcur
      · rcases hdl : download_files env name cc.source_url li fs cc.files
          with ⟨o, fs2, urls⟩
        cases o with
        | none =>
          exfalso
          rw [hrun] at h
          simp only [update_with_latest, hcur, if_neg hcur, hdl] at h
          exact Bool.false_ne_true h
        | some updated =>
          have h2 : update_with_latest env cc.source_url name cc.files li
              (get_current_version fs name) fs
              = ⟨true,
                  save_version_info fs2 name
                    (mk_version_info (is_release li) (latest_identifier li) cc.source_url
                      env.now updated (mk_file_hashes env fs2 updated)),
                  urls⟩ := by
            simp only [update_with_latest, if_neg hcur, hdl]
          rw [hrun, h2]
          apply update_component_noop_of env config name _ cc li hcfg hres

          rw [show get_current_version
              (save_version_info fs2 name
                (mk_version_info (is_release li) (latest_identifier li) cc.source_url
                  env.now updated (mk_file_hashes env fs2 updated))) name
            = some (mk_version_info (is_release li) (latest_identifier li) cc.source_url
                env.now updated (mk_file_hashes env fs2 updated)) from
            lookup_insertAssoc_self fs2.records name _]
          exact current_hash_of_mk_version_info li (latest_identifier li) cc.source_url
            env.now updated (mk_file_hashes env fs2 updated)

/-- C2: if the download of the file at plan index k fails (any k, including
k>0), `update_component` returns false and writes no version record — the
records store after the attempt equals the pre-attempt store — even though
the files at indices 0..k-1 were written to disk, and no plan entry after
index k is attempted (the requested URLs are exactly those of entries 0..k). -/
theorem download_failure_preserves_record (env : Env) (config : Config) (name : String)
    (fs : FS) (cc : ComponentConfig) (li : LatestInfo) (k : Nat)
    (hcfg : config.lookup name = some cc)
    (hres : resolve_latest env cc.source_url (cc.use_releases.getD true) = some li)
    (hne : current_hash_of li (get_current_version fs name)
      ≠ some (JVal.str (latest_identifier li)))
    (hk : k < cc.files.length)
    (hpre : (cc.files.take k).all
      (fun fi => (env.fileAt (build_download_url cc.source_url li fi.source)).isSome) = true)
    (hfail : env.fileAt (build_download_url cc.source_url li
      (cc.files.get ⟨k, hk⟩).source) = none) :
    (update_component env config name fs).ok = false ∧
    (update_component env config name fs).fs.records = fs.records ∧
    (update_component env config name fs).downloads
      = (cc.files.take (k+1)).map (fun fi => build_download_url cc.source_url li fi.source) ∧
    (cc.files.take k).all
      (fun fi => (((update_component env config name fs).fs.files).lookup
        (os_path_join name fi.destination)).isSome) = true := by
  have hrun : update_component env config name fs
      = update_with_latest env cc.source_url name cc.files li
          (get_current_version fs name) fs := by
    simp [update_component, hcfg, hres]
  obtain ⟨h1, h3, h4⟩ := download_files_abort env name cc.source_url li cc.files fs k hk hpre hfail
  have hrec := download_files_records env name cc.source_url li cc.files fs
  rcases hdl : download_files env name cc.source_url li fs cc.files with ⟨o, fs2, urls⟩
  rw [hdl] at h1 h3 h4 hrec
  simp only at h1
  subst h1
  have h2 : update_with_latest env cc.source_url name cc.files li
      (get_current_version fs name) fs = ⟨false, fs2, urls⟩ := by
    simp only [update_with_latest, if_neg hne, hdl]
  rw [hrun, h2]
  exact ⟨rfl, hrec, h3, h4⟩

/-- The asset-search loop returns the download URL of the first asset found
by a first-match search. -/
theorem find_asset_url_eq_find (assets : List Asset) (base : String) :
    find_asset_url assets base
      = (assets.find? (fun a => a.name == base)).map Asset.browser_download_url := by
  induction assets with
  | nil => rfl
  | cons a rest ih =>
    by_cases h : a.name = base
    · simp [find_asset_url, h, List.find?]
    · have hb : (a.name == base) = false := by
        rw [beq_eq_false_iff_ne]
        exact h
      simp [find_asset_url, h, List.find?, hb, ih]

/-- A release whose single asset matches the requested basename but carries an
empty download URL. -/
def relEmptyAsset : Release := ⟨"v1", [⟨"f.js", ""⟩]⟩

/-- C7 counterexample: for the release above, the first (and only) asset's
name equals the basename of "dist/f.js", yet the constructed download URL is
not that asset's direct download URL (the empty string is falsy under the
source's `if not download_url` test) — the raw-content URL is used instead. -/
theorem asset_url_claim_counterexample :
    relEmptyAsset.assets.find? (fun a => a.name == os_path_basename "dist/f.js")
      = some ⟨"f.js", ""⟩ ∧
    build_download_url "https://github.com/o/r" (LatestInfo.release relEmptyAsset) "dist/f.js"
      = "https://github.com/o/r/raw/v1/dist/f.js" ∧
    build_download_url "https://github.com/o/r" (LatestInfo.release relEmptyAsset) "dist/f.js"
      ≠ (Asset.mk "f.js" "").browser_download_url := by
  refine ⟨rfl, rfl, ?_⟩
  decide

/-- C7 amended: for a commit the download URL is always the raw-content URL
built from the repository reference, the full commit SHA and the source path;
for a release it is the direct download URL of the first asset whose name
equals the source path's basename provided that URL is nonempty, and the
raw-content URL built from the repository reference, the release tag and the
source path when no asset matches or the matching asset's URL is empty. -/
theorem build_download_url_spec (repo_url source_path : String) (r : Release) (c : Commit) :
    (build_download_url repo_url (LatestInfo.commit c) source_path
      = raw_url repo_url c.sha source_path) ∧
    (∀ a, r.assets.find? (fun x => x.name == os_path_basename source_path) = some a →
      a.browser_download_url ≠ "" →
      build_download_url repo_url (LatestInfo.release r) source_path
        = a.browser_download_url) ∧
    (∀ a, r.assets.find? (fun x => x.name == os_path_basename source_path) = some a →
      a.browser_download_url = "" →
      build_download_url repo_url (LatestInfo.release r) source_path
        = raw_url repo_url r.tag_name source_path) ∧
    (r.assets.find? (fun x => x.name == os_path_basename source_path) = none →
      build_download_url repo_url (LatestInfo.release r) source_path
        = raw_url repo_url r.tag_name source_path) := by
  refine ⟨rfl, ?_, ?_, ?_⟩
  · intro a hfind hne
    simp only [build_download_url, find_asset_url_eq_find, hfind, Option.map_some']
    rw [if_neg hne]
  · intro a hfind heq
    simp only [build_download_url, find_asset_url_eq_find, hfind, Option.map_some']
    rw [if_pos heq]
  · intro hfind
    simp only [build_download_url, find_asset_url_eq_find, hfind, Option.map_none']

/-- The upstream state where every metadata lookup and download fails. -/
def envNone : Env :=
  { releaseAt := fun _ => none
  , commitAt := fun _ => none
  , fileAt := fun _ => none
  , sha256 := fun s => s
  , now := "t" }

/-- A one-component configuration with no stored version record. -/
def cfgOne : Config :=
  [("card-mod", ⟨"https://github.com/o/r", [⟨"dist/f.js", "f.js"⟩], none⟩)]

/-- The empty filesystem: no version records, no files. -/
def fs0 : FS := ⟨[], []⟩

/-- C8 counterexample: the component "card-mod" has no stored version record,
yet when both the release and the commit lookups fail, `check_for_updates`
does not report it at all — refuting "reported ... regardless of upstream
state". -/
theorem check_no_record_claim_counterexample :
    get_current_version fs0 "card-mod" = none ∧
    (check_for_updates envNone cfgOne fs0).1.lookup "card-mod" = none ∧
    (check_for_updates envNone cfgOne fs0).1 = [] := by
  refine ⟨rfl, rfl, rfl⟩

/-- C8 amended: every configured component that has no stored version record
and whose latest revision resolves successfully is reported in the returned
map as needing an update, with its current version reported as "N/A". -/
theorem check_no_record_reported (env : Env) (config : Config) (fs : FS)
    (name : String) (cc : ComponentConfig) (li : LatestInfo)
    (hnd : (config.map Prod.fst).Nodup)
    (hmem : (name, cc) ∈ config)
    (hnorec : get_current_version fs name = none)
    (hres : resolve_latest env cc.source_url (cc.use_releases.getD true) = some li) :
    (check_for_updates env config fs).1.lookup name
      = some ⟨JVal.str "N/A", latest_identifier li, cc.source_url⟩ := by
  have hcheck : check_component env fs name cc
      = some ⟨JVal.str "N/A", latest_identifier li, cc.source_url⟩ := by
    simp [check_component, hnorec, hres, current_hash_of, current_or_na]
  exact check_fold_lookup_mem env name cc _ config ([], fs) hnd hmem hcheck

/-- C9: `update_all_components` produces exactly one boolean per configured
component, keyed in configuration order, and the boolean for the component at
index i is the result of invoking `update_component` for it on the state left
by the components before it — the loop is unconditional, so one component's
failure never prevents or alters the processing of any other. -/
theorem update_all_components_spec (env : Env) (config : Config) (fs : FS)
    (hnd : (config.map Prod.fst).Nodup) :
    ((update_all_components env config fs).1.map Prod.fst = config.map Prod.fst) ∧
    ∀ i (h : i < config.length),
      (update_all_components env config fs).1.lookup (config.get ⟨i, h⟩).1
        = some (update_component env config (config.get ⟨i, h⟩).1
            (run_components env config fs (config.take i))).ok := by
  constructor
  · have hkeys := update_all_fold_keys env config config ([], fs) hnd (by simp)
    simpa [update_all_components] using hkeys
  · intro i h
    exact update_all_fold_get env config config ([], fs) i h hnd

/-! ### Witness fixtures: concrete upstream states and configurations -/

/-- A release "v1" with no assets. -/
def relW : Release := ⟨"v1", []⟩

/-- Upstream where repository o/r has release "v1" and the raw file at that
tag downloads successfully. -/
def envW : Env :=
  { releaseAt := fun u => if u = release_api_url "o" "r" then some relW else none
  , commitAt := fun _ => none
  , fileAt := fun u =>
      if u = raw_url "https://github.com/o/r" "v1" "dist/f.js" then some "body" else none
  , sha256 := fun s => s
  , now := "2026-01-01T00:00:00" }

/-- One release-preferring component tracking o/r with a single file. -/
def cfgW : Config :=
  [("comp", ⟨"https://github.com/o/r", [⟨"dist/f.js", "f.js"⟩], none⟩)]

/-- Upstream with no releases, where the latest master commit resolves and
every file download succeeds. -/
def envC : Env :=
  { releaseAt := fun _ => none
  , commitAt := fun u => if u = commit_api_url "o" "r" "master" then some ⟨"deadbeef12345"⟩ else none
  , fileAt := fun _ => some "body"
  , sha256 := fun s => s
  , now := "t" }

/-- Upstream where the master lookup fails but the main lookup succeeds. -/
def envM : Env :=
  { releaseAt := fun _ => none
  , commitAt := fun u => if u = commit_api_url "o" "r" "main" then some ⟨"cafebabe999"⟩ else none
  , fileAt := fun _ => none
  , sha256 := fun s => s
  , now := "t" }

/-- A two-file component used for the abort-at-index-1 witness. -/
def ccW2 : ComponentConfig :=
  ⟨"https://github.com/o/r", [⟨"a.js", "a.js"⟩, ⟨"b.js", "b.js"⟩], none⟩

def cfgW2 : Config := [("comp2", ccW2)]

/-- Upstream where the first file of `ccW2` downloads and the second fails. -/
def envW2 : Env :=
  { releaseAt := fun u => if u = release_api_url "o" "r" then some relW else none
  , commitAt := fun _ => none
  , fileAt := fun u => if u = raw_url "https://github.com/o/r" "v1" "a.js" then some "abody" else none
  , sha256 := fun s => s
  , now := "t" }

/-- A release with an asset whose download URL is populated. -/
def relY : Release := ⟨"v2", [⟨"f.js", "https://cdn/f.js"⟩]⟩

/-- A component with an undecomposable repository reference (its update always
fails) next to a healthy one, for the update-all witness. -/
def cfgW9 : Config :=
  [("compA", ⟨"badurl", [], none⟩),
   ("compB", ⟨"https://github.com/o/r", [⟨"dist/f.js", "f.js"⟩], none⟩)]

/-! ### Witnesses -/

/-- Witness for C1: a concrete successful first run (initial release download)
followed by the no-op second run. -/
theorem updateOne_idempotent_witness :
    (update_component envW cfgW "comp" fs0).ok = true ∧
    update_component envW cfgW "comp" (update_component envW cfgW "comp" fs0).fs
      = ⟨true, (update_component envW cfgW "comp" fs0).fs, []⟩ :=
  ⟨by decide, updateOne_idempotent envW cfgW "comp" fs0 (by decide)⟩

/-- Witness for C2 at k = 1: the first file is written, the second fails, no
record is persisted and only two URLs are requested. -/
theorem download_failure_preserves_record_witness :
    (update_component envW2 cfgW2 "comp2" fs0).ok = false ∧
    (update_component envW2 cfgW2 "comp2" fs0).fs.records = fs0.records ∧
    (update_component envW2 cfgW2 "comp2" fs0).downloads
      = (ccW2.files.take 2).map
          (fun fi => build_download_url ccW2.source_url (LatestInfo.release relW) fi.source) ∧
    (ccW2.files.take 1).all
      (fun fi => (((update_component envW2 cfgW2 "comp2" fs0).fs.files).lookup
        (os_path_join "comp2" fi.destination)).isSome) = true :=
  download_failure_preserves_record envW2 cfgW2 "comp2" fs0 ccW2 (LatestInfo.release relW) 1
    (by decide) (by decide) (by decide) (by decide) (by decide) (by decide)

/-- Witness for C3: with no stored record and a resolved commit, the first
configured file's download is attempted. -/
theorem noop_short_circuit_witness :
    (update_component envC cfgW "comp" fs0).downloads.head?
      = some (build_download_url "https://github.com/o/r"
          (LatestInfo.commit ⟨"deadbeef12345"⟩) "dist/f.js") := by
  have h := noop_short_circuit envC cfgW "comp" fs0
    ⟨"https://github.com/o/r", [⟨"dist/f.js", "f.js"⟩], none⟩
    (LatestInfo.commit ⟨"deadbeef12345"⟩) (by decide) (by decide)
  exact h.2 (by decide) ⟨"dist/f.js", "f.js"⟩ [] (by decide)

/-- Witness for C4: master fails, main succeeds; a non-master branch is not
retried; never more than two attempts. -/
theorem branch_fallback_spec_witness :
    get_latest_commit envM "https://github.com/o/r" "master"
      = (some ⟨"cafebabe999"⟩, ["master", "main"]) ∧
    get_latest_commit envM "https://github.com/o/r" "dev" = (none, ["dev"]) ∧
    (get_latest_commit envM "https://github.com/o/r" "master").2.length ≤ 2 := by
  have h := branch_fallback_spec envM "https://github.com/o/r" (by decide)
  refine ⟨?_, h.2.1 "dev" (by decide) (by decide), h.2.2 "master"⟩
  rw [h.1 (by decide)]
  decide

/-- Witness for C5: zero releases, commit resolution succeeds, and the update
proceeds along the commit path with the truncated SHA. -/
theorem release_fallback_spec_witness :
    resolve_latest envC "https://github.com/o/r" true
      = some (LatestInfo.commit ⟨"deadbeef12345"⟩) ∧
    update_component envC cfgW "comp" fs0
      = update_with_latest envC "https://github.com/o/r" "comp"
          [⟨"dist/f.js", "f.js"⟩] (LatestInfo.commit ⟨"deadbeef12345"⟩)
          (get_current_version fs0 "comp") fs0 ∧
    latest_identifier (LatestInfo.commit ⟨"deadbeef12345"⟩) = "deadbeef" := by
  have h := release_fallback_spec envC cfgW "comp" fs0
    ⟨"https://github.com/o/r", [⟨"dist/f.js", "f.js"⟩], none⟩
    (by decide) (by decide) (by decide)
  have h3 := h.2.2 ⟨"deadbeef12345"⟩ (by decide)
  exact ⟨by decide, h3.1, by decide⟩

/-- Witness for C7 (amended): commit raw URL, matching nonempty asset URL, and
empty-asset-URL fallback, at concrete inputs. -/
theorem build_download_url_spec_witness :
    build_download_url "https://github.com/o/r" (LatestInfo.commit ⟨"deadbeef12345"⟩) "dist/f.js"
      = "https://github.com/o/r/raw/deadbeef12345/dist/f.js" ∧
    build_download_url "https://github.com/o/r" (LatestInfo.release relY) "dist/f.js"
      = "https://cdn/f.js" ∧
    build_download_url "https://github.com/o/r" (LatestInfo.release relEmptyAsset) "dist/f.js"
      = "https://github.com/o/r/raw/v1/dist/f.js" := by
  have h := build_download_url_spec "https://github.com/o/r" "dist/f.js" relY ⟨"deadbeef12345"⟩
  have h2 := build_download_url_spec "https://github.com/o/r" "dist/f.js" relEmptyAsset
    ⟨"deadbeef12345"⟩
  exact ⟨h.1.trans (by decide),
    h.2.1 ⟨"f.js", "https://cdn/f.js"⟩ (by decide) (by decide),
    (h2.2.2.1 ⟨"f.js", ""⟩ (by decide) (by decide)).trans (by decide)⟩

/-- Witness for C8 (amended): a component with no record and a resolvable
commit is reported with current "N/A". -/
theorem check_no_record_reported_witness :
    (check_for_updates envC cfgW fs0).1.lookup "comp"
      = some ⟨JVal.str "N/A", "deadbeef", "https://github.com/o/r"⟩ := by
  have h := check_no_record_reported envC cfgW fs0 "comp"
    ⟨"https://github.com/o/r", [⟨"dist/f.js", "f.js"⟩], none⟩
    (LatestInfo.commit ⟨"deadbeef12345"⟩) (by decide) (by decide) (by decide) (by decide)
  exact h.trans (by decide)

/-- Witness for C9: the failing component "compA" is recorded as false and
does not stop "compB" from updating successfully. -/
theorem update_all_components_spec_witness :
    ((update_all_components envW cfgW9 fs0).1.map Prod.fst = cfgW9.map Prod.fst) ∧
    (update_all_components envW cfgW9 fs0).1.lookup "compA" = some false ∧
    (update_all_components envW cfgW9 fs0).1.lookup "compB" = some true := by
  have h := update_all_components_spec envW cfgW9 fs0 (by decide)
  refine ⟨h.1, ?_, ?_⟩
  · exact (h.2 0 (by decide)).trans (by decide)
  · exact (h.2 1 (by decide)).trans (by decide)

end UpdateComponents
